import Mathlib

/-!
Verification development for the media transformation and measurement
engine in `main.py` (class `MediaProcessor`).

Modelling conventions:
- Library calls that read media from disk (cv2.imread, imagehash.phash,
  moviepy frame extraction, librosa loading, the STFT) are modelled as
  oracle function parameters; the arithmetic performed by the repository
  itself is translated literally.
- Python floats are modelled as exact rationals; the one square root in
  the cosine-similarity computation forces that value into the reals.
- Random sampling (random.uniform, random.randint) is modelled by passing
  the sampled value explicitly; the documented range of the sampler
  becomes a hypothesis of the corresponding theorem.
- A raised Python exception is modelled with `Except`; a try/except block
  that swallows the error is translated into the value the except path
  produces.
-/

namespace MediaSpec

/-- A perceptual hash as produced by imagehash.phash with its default
parameters: an 8x8 boolean matrix, flattened here to a bit vector of
exactly 64 bits. -/
structure PHash where
  bits : List Bool
  bits_len : bits.length = 64

/-- Hamming distance between two bit vectors: the count of positions at
which they differ.  This is what `hash1 - hash2` computes in imagehash. -/
def hammingDistance (h1 h2 : List Bool) : Nat :=
  (List.zipWith (fun a b => a != b) h1 h2).count true

/-- Maximum possible differing bits, computed in the source as
`len(hash1.hash) * hash1.hash.dtype.itemsize * 8` = 8 * 1 * 8 for an 8x8
boolean hash matrix. -/
def maxHashBits : Nat := 8 * 1 * 8

/-- The normalized percentage `(diff / max_diff) * 100` computed from two
perceptual hashes (main.py lines 72-75, repeated verbatim at lines
241-244 inside the analyzer). -/
def phashPct (hash1 hash2 : PHash) : ℚ :=
  ((hammingDistance hash1.bits hash2.bits : ℚ) / (maxHashBits : ℚ)) * 100

/-- MediaProcessor.calculate_phash_difference: open both images, compute
the perceptual hash of each, and return the Hamming distance normalized
to a percentage.  Opening plus hashing is the oracle `phashF`, a pure
function of the image, which is applied to each input. -/
def calculate_phash_difference (phashF : α → PHash) (img1_path img2_path : α) : ℚ :=
  phashPct (phashF img1_path) (phashF img2_path)

/-- The label returned by get_risk_level for a phash difference of at
least 45.  The string is copied byte for byte from the source file; it is
a mis-encoded rendering of the Russian word for Low. -/
def lowRiskLabel : String := "–ù–∏–∑–∫–∏–π"

/-- The label returned by get_risk_level for a phash difference in
[30, 45); mis-encoded Russian for Medium. -/
def mediumRiskLabel : String := "–°—Ä–µ–¥–Ω–∏–π"

/-- The label returned by get_risk_level for a phash difference below 30;
mis-encoded Russian for High. -/
def highRiskLabel : String := "–í—ã—Å–æ–∫–∏–π"

/-- MediaProcessor.get_risk_level: threshold classification of the phash
difference.  The second parameter mirrors the audio_similarity argument
of the Python function (default None), which its body never reads. -/
def get_risk_level (phash_diff : ℚ) (audio_similarity : Option ℚ) : String :=
  if phash_diff ≥ 45 then lowRiskLabel
  else if phash_diff ≥ 30 then mediumRiskLabel
  else highRiskLabel

/-- The parameter ranges the image pipeline samples from for one tier:
bounds of random.uniform for crop fraction, scale factor, and the three
color shifts, plus the fixed noise opacity. -/
structure ImageParamRanges where
  crop_lo : ℚ
  crop_hi : ℚ
  scale_lo : ℚ
  scale_hi : ℚ
  noise_opacity : ℚ
  hue_lo : ℚ
  hue_hi : ℚ
  sat_lo : ℚ
  sat_hi : ℚ
  light_lo : ℚ
  light_hi : ℚ
deriving DecidableEq

/-- Image-pipeline parameter ranges of the `level == 1` branch
(main.py lines 85-91). -/
def lowTierImage : ImageParamRanges :=
  ⟨0.02, 0.03, 0.995, 1.005, 0.002, -0.5, 0.5, -1, 1, -1.5, 1.5⟩

/-- Image-pipeline parameter ranges of the `level == 2` branch
(main.py lines 92-98). -/
def mediumTierImage : ImageParamRanges :=
  ⟨0.02, 0.04, 0.985, 1.015, 0.003, -0.8, 0.8, -1.5, 1.5, -2.5, 2.5⟩

/-- Image-pipeline parameter ranges of the final else branch
(main.py lines 99-105). -/
def highTierImage : ImageParamRanges :=
  ⟨0.03, 0.06, 0.97, 1.03, 0.004, -1.0, 1.0, -2.0, 2.0, -3.0, 3.0⟩

/-- The branch structure of process_image on its level argument
(main.py lines 85-105): `if level == 1 ... elif level == 2 ... else ...`. -/
def imageParamRanges (level : ℤ) : ImageParamRanges :=
  if level = 1 then lowTierImage
  else if level = 2 then mediumTierImage
  else highTierImage

/-- The deterministic per-tier parameters of the video pipeline. -/
structure VideoParams where
  zoom_rate : ℚ
  jitter_range : ℚ
  gop_size : ℕ
  crf : ℕ
deriving DecidableEq

/-- Video-pipeline parameters of the `level == 1` branch
(main.py lines 149-153). -/
def lowTierVideo : VideoParams := ⟨0.002, 1, 30, 22⟩

/-- Video-pipeline parameters of the `level == 2` branch
(main.py lines 154-158). -/
def mediumTierVideo : VideoParams := ⟨0.003, 1.5, 25, 21⟩

/-- Video-pipeline parameters of the final else branch
(main.py lines 159-163). -/
def highTierVideo : VideoParams := ⟨0.005, 2, 20, 20⟩

/-- The branch structure of process_video on its level argument
(main.py lines 148-163). -/
def videoParams (level : ℤ) : VideoParams :=
  if level = 1 then lowTierVideo
  else if level = 2 then mediumTierVideo
  else highTierVideo

/-- A decoded raster image, modelled by its dimensions; the pixel-level
transforms of the pipeline (noise, color shift) do not change the shape
of the array, which is the only observable the claims mention. -/
structure Img where
  height : ℕ
  width : ℕ
deriving DecidableEq

/-- The Python exception that process_image raises when cv2.imread
returns None (unreadable path or unsupported format) and the code then
evaluates `img.shape` on None. -/
inductive PyErr where
  | attributeError
deriving DecidableEq

/-- The random samples consumed by one call of process_image. The
uniform samples for the color shifts and the scale factor do not affect
the geometry; they are carried for completeness. -/
structure ImageRand where
  crop_percent : ℚ
  scale_factor : ℚ
  color_shift_h : ℚ
  color_shift_s : ℚ
  color_shift_l : ℚ
  start_x : ℕ
  start_y : ℕ

/-- Python int() applied to a rational value: truncation toward zero. -/
def pyInt (q : ℚ) : ℤ :=
  if 0 ≤ q then ⌊q⌋ else -⌊-q⌋

/-- Length of the numpy slice a : a+len over an axis of size total
(numpy clamps out-of-range slice bounds instead of raising). -/
def sliceLen (start len total : ℕ) : ℕ :=
  min (start + len) total - start

/-- The crop width `int(width * (1 - crop_percent))` of main.py line 108;
also the crop height with height substituted. -/
def cropSide (side : ℕ) (crop_percent : ℚ) : ℕ :=
  (pyInt ((side : ℚ) * (1 - crop_percent))).toNat

/-- Observable outcome of a successful process_image call: the crop
rectangle that was sampled and the dimensions of the image written to
the output path. -/
structure ImageTrace where
  crop_x : ℕ
  crop_y : ℕ
  crop_w : ℕ
  crop_h : ℕ
  out : Img
deriving DecidableEq

/-- MediaProcessor.process_image, at the granularity of image shapes and
the crop geometry.  cv2.imread is the oracle `imread` (None on an
unreadable path or unsupported format, upon which `img.shape` raises
AttributeError).  The level-based branch selects the ranges
imageParamRanges level from which rng was drawn; the sampled values
themselves arrive in rng.  The crop slice is followed by cv2.resize back
to (width, height), a warpAffine onto the same (width, height) canvas,
additive noise of identical shape, and an HLS round trip, none of which
change the shape; cv2.imwrite then writes the final array and the
function returns True. -/
def process_image (imread : String → Option Img) (rng : ImageRand)
    (input_path output_path : String) (level : ℤ) : Except PyErr ImageTrace :=
  match imread input_path with
  | none => .error .attributeError
  | some img =>
    let height := img.height
    let width := img.width
    let crop_percent := rng.crop_percent
    let crop_w := cropSide width crop_percent
    let crop_h := cropSide height crop_percent
    let start_x := rng.start_x
    let start_y := rng.start_y
    let _cropped : Img := ⟨sliceLen start_y crop_h height, sliceLen start_x crop_w width⟩
    let resized : Img := ⟨height, width⟩
    let scaled : Img := ⟨resized.height, resized.width⟩
    let final : Img := scaled
    .ok ⟨start_x, start_y, crop_w, crop_h, final⟩

/-- A probed video clip as the analyzer sees it: its duration and whether
it carries an audio track (`clip.audio` truthiness). -/
structure Clip where
  duration : ℚ
  hasAudio : Bool

/-- np.linspace(a, b, n): n evenly spaced points from a to b inclusive. -/
def linspace (a b : ℚ) (n : ℕ) : List ℚ :=
  if n = 0 then []
  else if n = 1 then [a]
  else (List.range n).map (fun i => a + (b - a) * i / ((n : ℚ) - 1))

/-- The per-keyframe loop of analyze_video_uniqueness (main.py lines
225-247): sample times via linspace over the common duration, and for
each time extract both frames and compute the normalized hash
difference; a sample whose extraction or hashing raises is skipped.
Frame extraction together with the steps that can raise inside the try
block is the oracle `getFrame`; hashing an extracted frame is the pure
oracle `phashF`. -/
def sampleDiffs (getFrame : Clip → ℚ → Option α) (phashF : α → PHash)
    (original processed : Clip) : List ℚ :=
  let duration := min original.duration processed.duration
  let keyframe_times := linspace 0 duration (min 10 (pyInt duration).toNat)
  keyframe_times.filterMap (fun t =>
    match getFrame original t, getFrame processed t with
    | some orig_frame, some proc_frame =>
        some (phashPct (phashF orig_frame) (phashF proc_frame))
    | _, _ => none)

/-- Dot product of two flattened spectrogram magnitude vectors. -/
def dotList (u v : List ℚ) : ℚ :=
  (List.zipWith (fun a b => a * b) u v).sum

/-- Sum of squared entries of a vector. -/
def sumSq (u : List ℚ) : ℚ :=
  (u.map (fun x => x * x)).sum

/-- scipy.spatial.distance.cosine: one minus the cosine of the angle
between the two vectors, with the Euclidean norms as denominator. -/
noncomputable def cosineDist (u v : List ℚ) : ℝ :=
  1 - ((dotList u v : ℚ) : ℝ) / (Real.sqrt ((sumSq u : ℚ) : ℝ) * Real.sqrt ((sumSq v : ℚ) : ℝ))

/-- The audio comparison of main.py lines 262-275: truncate both loaded
waveforms to the shorter common length, take spectrogram magnitudes
(the STFT is the oracle `stftMag`; np.abs is the entrywise absolute
value), flatten, compute `similarity = 1 - cosine(u, v)` and return
`max(0, (1 - similarity) * 100)`. -/
noncomputable def audioDissimilarity (stftMag : List ℚ → List ℚ) (orig_audio proc_audio : List ℚ) : ℝ :=
  let n := min orig_audio.length proc_audio.length
  let orig_spec := stftMag (orig_audio.take n)
  let proc_spec := stftMag (proc_audio.take n)
  let u := orig_spec.map (fun x => |x|)
  let v := proc_spec.map (fun x => |x|)
  let similarity : ℝ := 1 - cosineDist u v
  max 0 ((1 - similarity) * 100)

/-- MediaProcessor.analyze_video_uniqueness.  The aggregate phash
difference is np.mean of the successful samples, or 0 when the list is
empty.  audio_similarity is initialized to 0 and only overwritten when
both clips report an audio track and the extraction pipeline does not
raise; audio extraction plus librosa loading is the oracle `loadAudio`
(None models an exception, which the bare except turns back into 0). -/
noncomputable def analyze_video_uniqueness (getFrame : Clip → ℚ → Option α)
    (phashF : α → PHash) (loadAudio : Clip → Option (List ℚ))
    (stftMag : List ℚ → List ℚ) (original processed : Clip) : ℚ × ℝ :=
  let phash_differences := sampleDiffs getFrame phashF original processed
  let avg_phash_diff : ℚ :=
    if phash_differences = [] then 0
    else phash_differences.sum / (phash_differences.length : ℚ)
  let audio_similarity : ℝ :=
    if original.hasAudio && processed.hasAudio then
      match loadAudio original, loadAudio processed with
      | some orig_audio, some proc_audio => audioDissimilarity stftMag orig_audio proc_audio
      | _, _ => 0
    else 0
  (avg_phash_diff, audio_similarity)

/-- An all-zero 64-bit perceptual hash, used to instantiate the hashing
oracle in concrete witnesses. -/
def zeroPHash : PHash :=
  ⟨List.replicate 64 false, by simp⟩

/-- A fixed random draw used by concrete witnesses of the image pipeline
theorems. -/
def rngSample : ImageRand :=
  ⟨0.02, 1, 0, 0, 0, 5, 5⟩

/-- A concrete input path for witnesses. -/
def pathA : String := "a"

/-- A concrete output path for witnesses. -/
def pathB : String := "b"

/-- A concrete 5-second clip without an audio track. -/
def clipNoAudio : Clip := ⟨5, false⟩

/-- A concrete 5-second clip with an audio track. -/
def clipWithAudio : Clip := ⟨5, true⟩

/-- A frame-extraction oracle that fails at every time point. -/
def noFrames : Clip → ℚ → Option Unit := fun _ _ => none

/-- An audio-loading oracle that always raises. -/
def noAudioLoad : Clip → Option (List ℚ) := fun _ => none

/-- A concrete 400x600 source image for witnesses. -/
def imgSample : Img := ⟨400, 600⟩

/-- An image-reading oracle that always succeeds with imgSample. -/
def imreadSample : String → Option Img := fun _ => some imgSample

theorem hammingDistance_self (l : List Bool) : hammingDistance l l = 0 := by
  induction l with
  | nil => rfl
  | cons a l ih => simpa [hammingDistance, List.count_cons] using ih

theorem hammingDistance_le (h1 h2 : List Bool) :
    hammingDistance h1 h2 ≤ min h1.length h2.length := by
  unfold hammingDistance
  calc (List.zipWith (fun a b => a != b) h1 h2).count true
      ≤ (List.zipWith (fun a b => a != b) h1 h2).length := List.count_le_length _ _
    _ = min h1.length h2.length := List.length_zipWith _ _ _

theorem phashPct_mem (hash1 hash2 : PHash) :
    0 ≤ phashPct hash1 hash2 ∧ phashPct hash1 hash2 ≤ 100 := by
  have hd : hammingDistance hash1.bits hash2.bits ≤ 64 := by
    have h := hammingDistance_le hash1.bits hash2.bits
    rw [hash1.bits_len, hash2.bits_len] at h
    simpa using h
  have hq : (hammingDistance hash1.bits hash2.bits : ℚ) ≤ 64 := by exact_mod_cast hd
  have hq0 : (0 : ℚ) ≤ (hammingDistance hash1.bits hash2.bits : ℚ) := by positivity
  constructor
  · unfold phashPct
    positivity
  · unfold phashPct maxHashBits
    have hdiv : (hammingDistance hash1.bits hash2.bits : ℚ) / ((8 * 1 * 8 : ℕ) : ℚ) ≤ 1 := by
      rw [div_le_one (by norm_num)]
      simpa using hq
    nlinarith [hdiv]

theorem list_mean_mem (l : List ℚ) (h0 : ∀ x ∈ l, 0 ≤ x) (h100 : ∀ x ∈ l, x ≤ 100) :
    0 ≤ (if l = [] then (0 : ℚ) else l.sum / (l.length : ℚ)) ∧
    (if l = [] then (0 : ℚ) else l.sum / (l.length : ℚ)) ≤ 100 := by
  by_cases hl : l = []
  · simp [hl]
  · have hlen : (0 : ℚ) < (l.length : ℚ) := by
      have : l.length ≠ 0 := by simpa [List.length_eq_zero] using hl
      exact_mod_cast Nat.pos_of_ne_zero this
    have hsum0 : 0 ≤ l.sum := List.sum_nonneg h0
    have hsum : l.sum ≤ (l.length : ℚ) * 100 := by
      have h := List.sum_le_card_nsmul l 100 h100
      simpa [nsmul_eq_mul] using h
    rw [if_neg hl]
    constructor
    · exact div_nonneg hsum0 hlen.le
    · rw [div_le_iff₀ hlen]
      linarith

/-- Claim C1: get_risk_level is a pure function of the phash-difference
percentage with exact thresholds: at least 45 gives the Low label, at
least 30 but below 45 gives the Medium label, below 30 gives the High
label; in particular the boundary inputs 45, 44.999, 30 and 29.999
classify as Low, Medium, Medium and High respectively. -/
theorem risk_level_thresholds :
    (∀ (p : ℚ) (a : Option ℚ),
      (45 ≤ p → get_risk_level p a = lowRiskLabel) ∧
      (30 ≤ p → p < 45 → get_risk_level p a = mediumRiskLabel) ∧
      (p < 30 → get_risk_level p a = highRiskLabel)) ∧
    get_risk_level 45 none = lowRiskLabel ∧
    get_risk_level 44.999 none = mediumRiskLabel ∧
    get_risk_level 30 none = mediumRiskLabel ∧
    get_risk_level 29.999 none = highRiskLabel := by
  constructor
  · intro p a
    refine ⟨fun h => ?_, fun h1 h2 => ?_, fun h => ?_⟩
    · rw [get_risk_level, if_pos h]
    · rw [get_risk_level, if_neg (not_le.mpr h2), if_pos h1]
    · rw [get_risk_level, if_neg (not_le.mpr (by linarith)), if_neg (not_le.mpr h)]
  · refine ⟨?_, ?_, ?_, ?_⟩ <;> norm_num [get_risk_level]

/-- Witness for C1 at concrete inputs. -/
theorem risk_level_thresholds_witness :
    get_risk_level 50 (some 3) = lowRiskLabel ∧
    get_risk_level 31 none = mediumRiskLabel ∧
    get_risk_level 7 none = highRiskLabel :=
  ⟨(risk_level_thresholds.1 50 (some 3)).1 (by norm_num),
   (risk_level_thresholds.1 31 none).2.1 (by norm_num) (by norm_num),
   (risk_level_thresholds.1 7 none).2.2 (by norm_num)⟩

/-- Claim C10: the risk label depends only on the phash-difference
argument; the audio_similarity argument never influences the result. -/
theorem risk_level_ignores_audio :
    ∀ (p : ℚ) (a1 a2 : Option ℚ), get_risk_level p a1 = get_risk_level p a2 :=
  fun _ _ _ => rfl

/-- Claim C5: the level branch collapses the integer uniqueness level to
three tiers in both pipelines: level 1 selects the low tier, level 2 the
medium tier, and every level at least 3 (in particular 4 and 5) the high
tier. -/
theorem tier_collapse :
    imageParamRanges 1 = lowTierImage ∧
    imageParamRanges 2 = mediumTierImage ∧
    (∀ level : ℤ, 3 ≤ level → imageParamRanges level = highTierImage) ∧
    videoParams 1 = lowTierVideo ∧
    videoParams 2 = mediumTierVideo ∧
    (∀ level : ℤ, 3 ≤ level → videoParams level = highTierVideo) := by
  refine ⟨by norm_num [imageParamRanges], by norm_num [imageParamRanges], ?_,
          by norm_num [videoParams], by norm_num [videoParams], ?_⟩
  · intro level h
    rw [imageParamRanges, if_neg (by omega), if_neg (by omega)]
  · intro level h
    rw [videoParams, if_neg (by omega), if_neg (by omega)]

/-- Witness for C5: levels 4 and 5 fall into the high tier. -/
theorem tier_collapse_witness :
    imageParamRanges 4 = highTierImage ∧ videoParams 5 = highTierVideo := by
  obtain ⟨-, -, hi, -, -, hv⟩ := tier_collapse
  exact ⟨hi 4 (by norm_num), hv 5 (by norm_num)⟩

/-- Claim C7: comparing any valid image with itself yields identical
perceptual hashes and a hash-difference percentage of exactly 0. -/
theorem hash_difference_self_zero :
    ∀ (α : Type) (phashF : α → PHash) (x : α),
      calculate_phash_difference phashF x x = 0 := by
  intro α phashF x
  unfold calculate_phash_difference phashPct
  rw [hammingDistance_self]
  norm_num

/-- Claim C8: calculate_phash_difference computes a 64-bit hash of each
input, takes the Hamming distance between the two equal-length bit
vectors, and returns that distance divided by 64 times 100. -/
theorem hash_difference_formula :
    ∀ (α : Type) (phashF : α → PHash) (a b : α),
      (phashF a).bits.length = 64 ∧
      (phashF b).bits.length = (phashF a).bits.length ∧
      calculate_phash_difference phashF a b =
        ((hammingDistance (phashF a).bits (phashF b).bits : ℚ) / 64) * 100 := by
  intro α phashF a b
  refine ⟨(phashF a).bits_len, by rw [(phashF a).bits_len, (phashF b).bits_len], ?_⟩
  unfold calculate_phash_difference phashPct maxHashBits
  norm_num

/-- Claim C3: when the input path is unreadable or the format is
unsupported, cv2.imread returns None, the subsequent attribute access
raises, and process_image reports failure to the caller; it never
reports success on such inputs. -/
theorem process_image_unreadable_fails :
    ∀ (imread : String → Option Img) (rng : ImageRand)
      (input_path output_path : String) (level : ℤ),
      imread input_path = none →
      process_image imread rng input_path output_path level = .error .attributeError ∧
      ∀ t, process_image imread rng input_path output_path level ≠ .ok t := by
  intro imread rng i o l h
  have he : process_image imread rng i o l = .error .attributeError := by
    simp [process_image, h]
  exact ⟨he, fun t hc => by rw [he] at hc; exact Except.noConfusion hc⟩

/-- Witness for C3: a reader that fails on every path. -/
theorem process_image_unreadable_fails_witness :
    process_image (fun _ => none) rngSample pathA pathB 3 = .error .attributeError ∧
    ∀ t, process_image (fun _ => none) rngSample pathA pathB 3 ≠ .ok t :=
  process_image_unreadable_fails (fun _ => none) rngSample pathA pathB 3 rfl

/-- Claim C2 as stated is false on the code: when an asset lacks audio,
the analyzer still returns the number 0 as audio-dissimilarity, not an
absent value.  Concrete refutation: the original clip has no audio track
and the returned audio component is the value 0. -/
theorem analyzer_no_audio_counterexample :
    clipNoAudio.hasAudio = false ∧
    (analyze_video_uniqueness noFrames (fun _ => zeroPHash) noAudioLoad
        (fun w => w) clipNoAudio clipWithAudio).2 = 0 := by
  refine ⟨rfl, ?_⟩
  simp [analyze_video_uniqueness, clipNoAudio, clipWithAudio]

/-- Claim C2 amended: when either asset lacks an audio track, the audio
branch is skipped and the audio-dissimilarity component is returned as
the value 0 (a present number, indistinguishable from zero measured
dissimilarity), rather than being absent. -/
theorem analyzer_no_audio_is_zero :
    ∀ (α : Type) (getFrame : Clip → ℚ → Option α) (phashF : α → PHash)
      (loadAudio : Clip → Option (List ℚ)) (stftMag : List ℚ → List ℚ)
      (original processed : Clip),
      original.hasAudio = false ∨ processed.hasAudio = false →
      (analyze_video_uniqueness getFrame phashF loadAudio stftMag original processed).2 = 0 := by
  intro α getFrame phashF loadAudio stftMag original processed h
  rcases h with h | h <;> simp [analyze_video_uniqueness, h]

/-- Witness for the amended C2: the processed clip lacks audio. -/
theorem analyzer_no_audio_is_zero_witness :
    (analyze_video_uniqueness noFrames (fun _ => zeroPHash) noAudioLoad
        (fun w => w) clipWithAudio clipNoAudio).2 = 0 :=
  analyzer_no_audio_is_zero Unit noFrames (fun _ => zeroPHash) noAudioLoad
    (fun w => w) clipWithAudio clipNoAudio (Or.inr rfl)

/-- Claim C6: failed per-keyframe samples are skipped (they simply do
not appear in the list of successful samples) and the analysis never
aborts; the aggregate is the arithmetic mean of the successfully
computed per-sample percentages, and when zero samples succeed the
aggregate is exactly 0. -/
theorem analyzer_mean_of_successes :
    ∀ (α : Type) (getFrame : Clip → ℚ → Option α) (phashF : α → PHash)
      (loadAudio : Clip → Option (List ℚ)) (stftMag : List ℚ → List ℚ)
      (original processed : Clip),
      (analyze_video_uniqueness getFrame phashF loadAudio stftMag original processed).1 =
        (if sampleDiffs getFrame phashF original processed = [] then 0
         else (sampleDiffs getFrame phashF original processed).sum /
              ((sampleDiffs getFrame phashF original processed).length : ℚ)) ∧
      ((∀ t, getFrame original t = none) →
        (analyze_video_uniqueness getFrame phashF loadAudio stftMag original processed).1 = 0) := by
  intro α getFrame phashF loadAudio stftMag original processed
  constructor
  · rfl
  · intro hfail
    have hs : sampleDiffs getFrame phashF original processed = [] := by
      unfold sampleDiffs
      rw [List.filterMap_eq_nil_iff]
      intro t _
      rw [hfail t]
    simp [analyze_video_uniqueness, hs]

/-- Witness for C6: every extraction fails and the aggregate is 0. -/
theorem analyzer_mean_of_successes_witness :
    (analyze_video_uniqueness noFrames (fun _ => zeroPHash) noAudioLoad
        (fun w => w) clipNoAudio clipWithAudio).1 = 0 :=
  (analyzer_mean_of_successes Unit noFrames (fun _ => zeroPHash) noAudioLoad
    (fun w => w) clipNoAudio clipWithAudio).2 (fun _ => rfl)

theorem imageParamRanges_crop_bounds (level : ℤ) :
    0 ≤ (imageParamRanges level).crop_lo ∧ (imageParamRanges level).crop_hi ≤ 1 := by
  by_cases h1 : level = 1
  · simp [imageParamRanges, h1, lowTierImage]
    norm_num
  · by_cases h2 : level = 2
    · simp [imageParamRanges, h1, h2, mediumTierImage]
      norm_num
    · simp [imageParamRanges, h1, h2, highTierImage]
      norm_num

theorem cropSide_le (side : ℕ) (cp : ℚ) (h0 : 0 ≤ cp) : cropSide side cp ≤ side := by
  unfold cropSide pyInt
  split
  · rw [Int.toNat_le]
    calc ⌊(side : ℚ) * (1 - cp)⌋ ≤ ⌊((side : ℕ) : ℚ)⌋ := by
          apply Int.floor_le_floor
          have hside : (0 : ℚ) ≤ (side : ℚ) := Nat.cast_nonneg side
          nlinarith
      _ = (side : ℤ) := Int.floor_natCast side
  · have hneg : (0 : ℤ) ≤ ⌊-((side : ℚ) * (1 - cp))⌋ := by
      apply Int.floor_nonneg.mpr
      linarith [lt_of_not_le (by assumption : ¬ (0 : ℚ) ≤ (side : ℚ) * (1 - cp))]
    have : (-⌊-((side : ℚ) * (1 - cp))⌋).toNat = 0 := by
      rw [Int.toNat_eq_zero]
      omega
    omega

/-- Claim C9: under the documented contracts of the random samplers
(crop fraction inside the tier range chosen for the level, crop offsets
inside the randint bounds), process_image succeeds, the sampled crop
rectangle lies entirely within the source image bounds, and the output
written to disk has exactly the dimensions of the source image. -/
theorem process_image_crop_and_dims :
    ∀ (imread : String → Option Img) (rng : ImageRand)
      (input_path output_path : String) (level : ℤ) (img : Img),
      imread input_path = some img →
      (imageParamRanges level).crop_lo ≤ rng.crop_percent →
      rng.crop_percent ≤ (imageParamRanges level).crop_hi →
      rng.start_x ≤ img.width - cropSide img.width rng.crop_percent →
      rng.start_y ≤ img.height - cropSide img.height rng.crop_percent →
      process_image imread rng input_path output_path level =
        .ok ⟨rng.start_x, rng.start_y,
             cropSide img.width rng.crop_percent,
             cropSide img.height rng.crop_percent, img⟩ ∧
      rng.start_x + cropSide img.width rng.crop_percent ≤ img.width ∧
      rng.start_y + cropSide img.height rng.crop_percent ≤ img.height := by
  intro imread rng input_path output_path level img hread hlo hhi hx hy
  have h0 : 0 ≤ rng.crop_percent :=
    le_trans (imageParamRanges_crop_bounds level).1 hlo
  have hw : cropSide img.width rng.crop_percent ≤ img.width := cropSide_le _ _ h0
  have hh : cropSide img.height rng.crop_percent ≤ img.height := cropSide_le _ _ h0
  refine ⟨?_, by omega, by omega⟩
  simp [process_image, hread]

/-- Witness for C9 at a concrete 400x600 image, level 1 and a fixed
random draw. -/
theorem process_image_crop_and_dims_witness :
    process_image imreadSample rngSample pathA pathB 1 =
      .ok ⟨rngSample.start_x, rngSample.start_y,
           cropSide imgSample.width rngSample.crop_percent,
           cropSide imgSample.height rngSample.crop_percent, imgSample⟩ ∧
    rngSample.start_x + cropSide imgSample.width rngSample.crop_percent ≤ imgSample.width ∧
    rngSample.start_y + cropSide imgSample.height rngSample.crop_percent ≤ imgSample.height :=
  by
  have hw : cropSide imgSample.width rngSample.crop_percent = 588 := by
    show cropSide 600 (0.02 : ℚ) = 588
    unfold cropSide pyInt
    norm_num
    rfl
  have hh : cropSide imgSample.height rngSample.crop_percent = 392 := by
    show cropSide 400 (0.02 : ℚ) = 392
    unfold cropSide pyInt
    norm_num
    rfl
  exact process_image_crop_and_dims imreadSample rngSample pathA pathB 1 imgSample rfl
    (by norm_num [imageParamRanges, lowTierImage, rngSample])
    (by norm_num [imageParamRanges, lowTierImage, rngSample])
    (by rw [hw]; norm_num [rngSample, imgSample])
    (by rw [hh]; norm_num [rngSample, imgSample])

theorem dotList_nonneg (u v : List ℚ) (hu : ∀ x ∈ u, 0 ≤ x) (hv : ∀ x ∈ v, 0 ≤ x) :
    0 ≤ dotList u v := by
  induction u generalizing v with
  | nil => simp [dotList]
  | cons a u ih =>
    cases v with
    | nil => simp [dotList]
    | cons b v =>
      have ha : 0 ≤ a := hu a (by simp)
      have hb : 0 ≤ b := hv b (by simp)
      have hrest : 0 ≤ dotList u v :=
        ih v (fun x hx => hu x (List.mem_cons_of_mem a hx))
          (fun x hx => hv x (List.mem_cons_of_mem b hx))
      have hrest' : 0 ≤ (List.zipWith (fun a b => a * b) u v).sum := hrest
      simp only [dotList, List.zipWith_cons_cons, List.sum_cons]
      have hab : 0 ≤ a * b := mul_nonneg ha hb
      linarith

theorem cosineDist_le_one (u v : List ℚ) (hu : ∀ x ∈ u, 0 ≤ x) (hv : ∀ x ∈ v, 0 ≤ x) :
    cosineDist u v ≤ 1 := by
  unfold cosineDist
  have hdot : (0 : ℝ) ≤ ((dotList u v : ℚ) : ℝ) := by
    exact_mod_cast dotList_nonneg u v hu hv
  have hden : (0 : ℝ) ≤ Real.sqrt ((sumSq u : ℚ) : ℝ) * Real.sqrt ((sumSq v : ℚ) : ℝ) :=
    mul_nonneg (Real.sqrt_nonneg _) (Real.sqrt_nonneg _)
  have hq := div_nonneg hdot hden
  linarith

theorem dissim_core_mem (u v : List ℚ) (hu : ∀ x ∈ u, 0 ≤ x) (hv : ∀ x ∈ v, 0 ≤ x) :
    0 ≤ max (0 : ℝ) ((1 - (1 - cosineDist u v)) * 100) ∧
    max (0 : ℝ) ((1 - (1 - cosineDist u v)) * 100) ≤ 100 := by
  constructor
  · exact le_max_left _ _
  · apply max_le (by norm_num)
    have hc := cosineDist_le_one u v hu hv
    nlinarith

theorem abs_map_nonneg (l : List ℚ) : ∀ x ∈ l.map (fun y => |y|), 0 ≤ x := by
  intro x hx
  obtain ⟨y, -, rfl⟩ := List.mem_map.mp hx
  exact abs_nonneg y

theorem audioDissimilarity_mem (stftMag : List ℚ → List ℚ) (w1 w2 : List ℚ) :
    0 ≤ audioDissimilarity stftMag w1 w2 ∧ audioDissimilarity stftMag w1 w2 ≤ 100 :=
  dissim_core_mem
    ((stftMag (w1.take (min w1.length w2.length))).map (fun x => |x|))
    ((stftMag (w2.take (min w1.length w2.length))).map (fun x => |x|))
    (abs_map_nonneg _) (abs_map_nonneg _)

theorem sampleDiffs_mem (getFrame : Clip → ℚ → Option α) (phashF : α → PHash)
    (original processed : Clip) :
    ∀ x ∈ sampleDiffs getFrame phashF original processed, 0 ≤ x ∧ x ≤ 100 := by
  intro x hx
  simp only [sampleDiffs, List.mem_filterMap] at hx
  obtain ⟨t, -, hfx⟩ := hx
  cases h1 : getFrame original t with
  | none => rw [h1] at hfx; simp at hfx
  | some f1 =>
    cases h2 : getFrame processed t with
    | none => rw [h1, h2] at hfx; simp at hfx
    | some f2 =>
      rw [h1, h2] at hfx
      simp only [Option.some.injEq] at hfx
      rw [← hfx]
      exact phashPct_mem _ _

/-- Claim C4: every percentage computed by the system lies in [0, 100]:
the hash-difference percentage of calculate_phash_difference, and both
the aggregate phash-difference and the audio-dissimilarity components
returned by analyze_video_uniqueness. -/
theorem percentages_in_range :
    (∀ (α : Type) (phashF : α → PHash) (a b : α),
        0 ≤ calculate_phash_difference phashF a b ∧
        calculate_phash_difference phashF a b ≤ 100) ∧
    (∀ (α : Type) (getFrame : Clip → ℚ → Option α) (phashF : α → PHash)
        (loadAudio : Clip → Option (List ℚ)) (stftMag : List ℚ → List ℚ)
        (original processed : Clip),
        (0 ≤ (analyze_video_uniqueness getFrame phashF loadAudio stftMag original processed).1 ∧
          (analyze_video_uniqueness getFrame phashF loadAudio stftMag original processed).1 ≤ 100) ∧
        (0 ≤ (analyze_video_uniqueness getFrame phashF loadAudio stftMag original processed).2 ∧
          (analyze_video_uniqueness getFrame phashF loadAudio stftMag original processed).2 ≤ 100)) := by
  constructor
  · intro α phashF a b
    exact phashPct_mem _ _
  · intro α getFrame phashF loadAudio stftMag original processed
    constructor
    · have hmem := sampleDiffs_mem getFrame phashF original processed
      exact list_mean_mem (sampleDiffs getFrame phashF original processed)
        (fun x hx => (hmem x hx).1) (fun x hx => (hmem x hx).2)
    · have hcases :
          (analyze_video_uniqueness getFrame phashF loadAudio stftMag original processed).2 = 0 ∨
          ∃ w1 w2, (analyze_video_uniqueness getFrame phashF loadAudio stftMag original
              processed).2 = audioDissimilarity stftMag w1 w2 := by
        by_cases hb : (original.hasAudio && processed.hasAudio) = true
        · cases hl1 : loadAudio original with
          | none => left; simp [analyze_video_uniqueness, hb, hl1]
          | some w1 =>
            cases hl2 : loadAudio processed with
            | none => left; simp [analyze_video_uniqueness, hb, hl1, hl2]
            | some w2 =>
              right
              exact ⟨w1, w2, by simp [analyze_video_uniqueness, hb, hl1, hl2]⟩
        · left; simp [analyze_video_uniqueness, hb]
      rcases hcases with h | ⟨w1, w2, h⟩
      · rw [h]; norm_num
      · rw [h]; exact audioDissimilarity_mem stftMag w1 w2

end MediaSpec
